import Mathlib

/-!
# Verification of the lBFGS_AutoDiff examples

A shallow embedding of the repository's forward-mode automatic-differentiation
pipeline (Ceres `Jet` dual numbers + objective-evaluator adapters feeding the
LBFGSpp bound-constrained minimizer) together with proofs of the specification
claims.

Machine doubles are modelled by exact real numbers `ℝ` (rationals `ℚ` for the
bounds model, where decidability is useful).  Eigen dynamic vectors are
modelled by `List ℝ`; an element access `x[i]` is modelled by `List.get?`, so
an out-of-bounds access surfaces as `none`, and a whole adapter call returns
`none` exactly when some vector access during the call is out of bounds.
The C++ adapters mutate nothing but the gradient out-argument; they are
embedded in state-passing style (each call returns the adapter value after
the call next to its result), so that the frame claims are statements about
the embedding rather than artifacts of it.
-/

/-- The dual-number type: Ceres `Jet<T, N>` (from `ceres/jet.h`, used by every
file under `src/`).  `a` is the scalar value, `v` the vector of `n` partial
derivatives (the "infinitesimal part").

Modelled from the spec: `ceres/jet.h` is an external dependency whose source
is not under `src/`; the type and its arithmetic follow §3/§4.1 of the spec
(a real value paired with an ordered sequence of partial derivatives
propagated by the chain rule), which coincide with Ceres's documented
formulas. -/
structure Jet (α : Type) (n : ℕ) where
  a : α
  v : Fin n → α

namespace Jet

variable {α : Type} {n : ℕ}

/-- `JetT(s)`: the constant dual number with value `s` and zero derivative,
produced by the C++ scalar-to-`Jet` conversion constructor. -/
def C [Zero α] (s : α) : Jet α n := ⟨s, fun _ => 0⟩

instance instAdd [Add α] : Add (Jet α n) :=
  ⟨fun f g => ⟨f.a + g.a, fun i => f.v i + g.v i⟩⟩

instance instSub [Sub α] : Sub (Jet α n) :=
  ⟨fun f g => ⟨f.a - g.a, fun i => f.v i - g.v i⟩⟩

instance instNeg [Neg α] : Neg (Jet α n) :=
  ⟨fun f => ⟨-f.a, fun i => -f.v i⟩⟩

/-- Ceres `operator*`: `(f*g).a = f.a * g.a` and
`(f*g).v = f.a * g.v + g.a * f.v`. -/
instance instMul [Mul α] [Add α] : Mul (Jet α n) :=
  ⟨fun f g => ⟨f.a * g.a, fun i => f.a * g.v i + g.a * f.v i⟩⟩

/-- Ceres `operator/`: `(f/g).a = f.a / g.a` and
`(f/g).v = (f.v - (f.a/g.a) * g.v) / g.a`. -/
instance instDiv [Div α] [Sub α] [Mul α] : Div (Jet α n) :=
  ⟨fun f g => ⟨f.a / g.a, fun i => (f.v i - f.a / g.a * g.v i) / g.a⟩⟩

instance instZero [Zero α] : Zero (Jet α n) := ⟨⟨0, fun _ => 0⟩⟩

instance instOne [Zero α] [One α] : One (Jet α n) := ⟨⟨1, fun _ => 0⟩⟩

/-- Dual numbers over a commutative ring form a commutative ring (plain
arithmetic on the value, chain-rule propagation on the derivatives); this
gives the `Jet` overloads of `+`, `-`, `*`, integer literals and `pow` used
by the generic objective templates their C++ meaning. -/
instance commRing [CommRing α] : CommRing (Jet α n) where
  add := (· + ·)
  add_assoc f g h := by
    obtain ⟨a1, v1⟩ := f; obtain ⟨a2, v2⟩ := g; obtain ⟨a3, v3⟩ := h
    show Jet.mk (a1 + a2 + a3) (fun i => v1 i + v2 i + v3 i)
        = Jet.mk (a1 + (a2 + a3)) (fun i => v1 i + (v2 i + v3 i))
    simp only [Jet.mk.injEq]
    exact ⟨by ring, funext fun i => by ring⟩
  zero := 0
  zero_add f := by
    obtain ⟨a1, v1⟩ := f
    show Jet.mk (0 + a1) (fun i => 0 + v1 i) = Jet.mk a1 v1
    simp only [Jet.mk.injEq]
    exact ⟨by ring, funext fun i => by ring⟩
  add_zero f := by
    obtain ⟨a1, v1⟩ := f
    show Jet.mk (a1 + 0) (fun i => v1 i + 0) = Jet.mk a1 v1
    simp only [Jet.mk.injEq]
    exact ⟨by ring, funext fun i => by ring⟩
  add_comm f g := by
    obtain ⟨a1, v1⟩ := f; obtain ⟨a2, v2⟩ := g
    show Jet.mk (a1 + a2) (fun i => v1 i + v2 i)
        = Jet.mk (a2 + a1) (fun i => v2 i + v1 i)
    simp only [Jet.mk.injEq]
    exact ⟨by ring, funext fun i => by ring⟩
  neg := Neg.neg
  sub := Sub.sub
  sub_eq_add_neg f g := by
    obtain ⟨a1, v1⟩ := f; obtain ⟨a2, v2⟩ := g
    show Jet.mk (a1 - a2) (fun i => v1 i - v2 i)
        = Jet.mk (a1 + -a2) (fun i => v1 i + -v2 i)
    simp only [Jet.mk.injEq]
    exact ⟨by ring, funext fun i => by ring⟩
  neg_add_cancel f := by
    obtain ⟨a1, v1⟩ := f
    show Jet.mk (-a1 + a1) (fun i => -v1 i + v1 i) = Jet.mk 0 fun _ => 0
    simp only [Jet.mk.injEq]
    exact ⟨by ring, funext fun i => by ring⟩
  nsmul := nsmulRec
  zsmul := zsmulRec
  mul := (· * ·)
  mul_assoc f g h := by
    obtain ⟨a1, v1⟩ := f; obtain ⟨a2, v2⟩ := g; obtain ⟨a3, v3⟩ := h
    show Jet.mk (a1 * a2 * a3) (fun i => a1 * a2 * v3 i + a3 * (a1 * v2 i + a2 * v1 i))
        = Jet.mk (a1 * (a2 * a3)) (fun i => a1 * (a2 * v3 i + a3 * v2 i) + a2 * a3 * v1 i)
    simp only [Jet.mk.injEq]
    exact ⟨by ring, funext fun i => by ring⟩
  one := 1
  one_mul f := by
    obtain ⟨a1, v1⟩ := f
    show Jet.mk (1 * a1) (fun i => 1 * v1 i + a1 * 0) = Jet.mk a1 v1
    simp only [Jet.mk.injEq]
    exact ⟨by ring, funext fun i => by ring⟩
  mul_one f := by
    obtain ⟨a1, v1⟩ := f
    show Jet.mk (a1 * 1) (fun i => a1 * 0 + 1 * v1 i) = Jet.mk a1 v1
    simp only [Jet.mk.injEq]
    exact ⟨by ring, funext fun i => by ring⟩
  left_distrib f g h := by
    obtain ⟨a1, v1⟩ := f; obtain ⟨a2, v2⟩ := g; obtain ⟨a3, v3⟩ := h
    show Jet.mk (a1 * (a2 + a3)) (fun i => a1 * (v2 i + v3 i) + (a2 + a3) * v1 i)
        = Jet.mk (a1 * a2 + a1 * a3)
            (fun i => (a1 * v2 i + a2 * v1 i) + (a1 * v3 i + a3 * v1 i))
    simp only [Jet.mk.injEq]
    exact ⟨by ring, funext fun i => by ring⟩
  right_distrib f g h := by
    obtain ⟨a1, v1⟩ := f; obtain ⟨a2, v2⟩ := g; obtain ⟨a3, v3⟩ := h
    show Jet.mk ((a1 + a2) * a3) (fun i => (a1 + a2) * v3 i + a3 * (v1 i + v2 i))
        = Jet.mk (a1 * a3 + a2 * a3)
            (fun i => (a1 * v3 i + a3 * v1 i) + (a2 * v3 i + a3 * v2 i))
    simp only [Jet.mk.injEq]
    exact ⟨by ring, funext fun i => by ring⟩
  zero_mul f := by
    obtain ⟨a1, v1⟩ := f
    show Jet.mk (0 * a1) (fun i => 0 * v1 i + a1 * 0) = Jet.mk 0 fun _ => 0
    simp only [Jet.mk.injEq]
    exact ⟨by ring, funext fun i => by ring⟩
  mul_zero f := by
    obtain ⟨a1, v1⟩ := f
    show Jet.mk (a1 * 0) (fun i => a1 * 0 + 0 * v1 i) = Jet.mk 0 fun _ => 0
    simp only [Jet.mk.injEq]
    exact ⟨by ring, funext fun i => by ring⟩
  mul_comm f g := by
    obtain ⟨a1, v1⟩ := f; obtain ⟨a2, v2⟩ := g
    show Jet.mk (a1 * a2) (fun i => a1 * v2 i + a2 * v1 i)
        = Jet.mk (a2 * a1) (fun i => a2 * v1 i + a1 * v2 i)
    simp only [Jet.mk.injEq]
    exact ⟨by ring, funext fun i => by ring⟩

end Jet

/-- Ceres `exp(Jet)`: value `exp(f.a)`, derivatives `exp(f.a) * f.v` (unary
chain rule).  Modelled from the spec (§4.1): the implementation lives in the
external `ceres/jet.h`. -/
noncomputable def jetExp {n : ℕ} (f : Jet ℝ n) : Jet ℝ n :=
  ⟨Real.exp f.a, fun i => Real.exp f.a * f.v i⟩

/-! ## Seeding and gradient extraction

The dynamic-dimensionality adapters (`src/quadratic.cpp` lines 51-57,
`src/rosenbrock.cpp` lines 57-63, `src/powell.cpp` lines 58-64) all run the
same loop

    for (int i = 0; i < n; ++i) {
      Eigen::VectorXd deriv = Eigen::VectorXd::Zero(n);
      deriv[i] = 1.0;
      x_jet[i] = JetT(x[i], deriv);
    }

and afterwards extract `grad[i] = f_jet.v[i]` for `0 <= i < n`. -/

/-- One pass of the seeding loop from index `i` up: builds the list of jets
`JetT(x[i], e_i), ..., JetT(x[n-1], e_(n-1))` where `e_i` is the vector that
is zero except for a `1.0` at position `i`; `none` when some read `x[i]` is
out of bounds. -/
def seedGo (n : ℕ) (x : List ℝ) (i : ℕ) : Option (List (Jet ℝ n)) :=
  if i < n then
    match x.get? i with
    | none => none
    | some xi =>
      (seedGo n x (i + 1)).map
        (fun tl => (⟨xi, fun j => if (j : ℕ) = i then 1 else 0⟩ : Jet ℝ n) :: tl)
  else some []
termination_by n - i

/-- The full seeding loop: `x_jet[i] = JetT(x[i], e_i)` for `0 <= i < n`. -/
def seedList (n : ℕ) (x : List ℝ) : Option (List (Jet ℝ n)) :=
  seedGo n x 0

/-- The gradient-extraction loop `for (i = 0; i < n; ++i) grad[i] = v[i]`,
writing into the caller's gradient vector `grad`; `none` when a write
`grad[i]` would be out of bounds. -/
def writeGrad {n : ℕ} (v : Fin n → ℝ) (grad : List ℝ) (i : ℕ) : Option (List ℝ) :=
  if h : i < n then
    if i < grad.length then writeGrad v (grad.set i (v ⟨i, h⟩)) (i + 1) else none
  else some grad
termination_by n - i

/-! ## The objective templates

Each example writes its objective once, generically over a scalar-like type
`T`, and instantiates it with `Jet`.  Vector reads `x[i]` are checked. -/

/-- `simple_quad` from `src/quadratic.cpp` lines 32-36:
`0.5 * (10.0 - x[0]) * (10.0 - x[0])`. -/
def simple_quad {T : Type} [CommRing T] [Div T] (x : List T) : Option T :=
  (x.get? 0).map fun x0 => 1 / 2 * (10 - x0) * (10 - x0)

/-- `powell_autodiff` from `src/powell.cpp` lines 34-43. -/
def powell_autodiff {T : Type} [CommRing T] (x : List T) : Option T :=
  match x.get? 0, x.get? 1, x.get? 2, x.get? 3 with
  | some x0, some x1, some x2, some x3 =>
    let term1 := x0 + 10 * x1
    let term2 := x2 - x3
    let term3 := x1 - 2 * x2
    let term4 := x0 - x3
    some (term1 * term1 + 5 * (term2 * term2) + term3 ^ 4 + 10 * term4 ^ 4)
  | _, _, _, _ => none

/-- The loop body of `rosenbrock_autodiff` (`src/rosenbrock.cpp` lines 36-40):
`for (i = 1; i < x.size(); ++i) { t = x[i] - x[i-1]*x[i-1]; fx += 4*t*t; }`,
walking the list with `prev = x[i-1]` alongside the accumulator `fx`. -/
def rosenGo {T : Type} [CommRing T] (prev : T) (rest : List T) (fx : T) : T :=
  match rest with
  | [] => fx
  | xi :: tl => rosenGo xi tl (fx + 4 * ((xi - prev * prev) * (xi - prev * prev)))

/-- `rosenbrock_autodiff` from `src/rosenbrock.cpp` lines 32-42:
`fx = (x[0]-1)*(x[0]-1)` then the loop above; `none` when the read `x[0]` is
out of bounds (empty vector). -/
def rosenbrock_autodiff {T : Type} [CommRing T] (x : List T) : Option T :=
  match x with
  | [] => none
  | x0 :: rest => some (rosenGo x0 rest ((x0 - 1) * (x0 - 1)))

/-- `exp_model` from `src/exponential.cpp` lines 34-37:
`exp_model(x, m, c) = exp(m * x + c)`. -/
noncomputable def exp_model {n : ℕ} (x m c : Jet ℝ n) : Jet ℝ n :=
  jetExp (m * x + c)

/-- The data loop of `ExpFitAutoDiff::operator()` (`src/exponential.cpp`
lines 56-60): for each data index, `y_pred = exp_model(JetT(x_data[i]), m, c)`,
`residual = y_pred - y_data[i]`, `loss += residual * residual`.  The loop
runs over `x_data` and reads the matching entry of `y_data`; `none` when a
read `y_data[i]` is out of bounds (`y_data` shorter than `x_data`). -/
noncomputable def expFitLoop {n : ℕ} (m c : Jet ℝ n) :
    List ℝ → List ℝ → Jet ℝ n → Option (Jet ℝ n)
  | [], _, loss => some loss
  | _ :: _, [], _ => none
  | xi :: xs, yi :: ys, loss =>
    let y_pred := exp_model (Jet.C xi) m c
    let residual := y_pred - Jet.C yi
    expFitLoop m c xs ys (loss + residual * residual)

/-! ## The objective evaluator adapters

Each adapter's C++ `operator()(const Vector& x, Vector& grad)` is embedded as
a function from the adapter value and the two vectors to the pair of the
call's result (`none` = an out-of-bounds access) and the adapter value after
the call. -/

/-- `SimpleQuadAutoDiff` from `src/quadratic.cpp` lines 39-65: the stored
dimensionality `n`. -/
structure SimpleQuadAutoDiff where
  n : ℕ

/-- `SimpleQuadAutoDiff::operator()`: seed, evaluate `simple_quad`, extract
`grad[i] = f_jet.v[i]` and return `f_jet.a`. -/
noncomputable def SimpleQuadAutoDiff.call (s : SimpleQuadAutoDiff) (x grad : List ℝ) :
    Option (ℝ × List ℝ) × SimpleQuadAutoDiff :=
  (do
    let x_jet ← seedList s.n x
    let f_jet ← simple_quad x_jet
    let grad2 ← writeGrad f_jet.v grad 0
    pure (f_jet.a, grad2), s)

/-- `PowellAutoDiff` from `src/powell.cpp` lines 46-73: the stored
dimensionality `n`. -/
structure PowellAutoDiff where
  n : ℕ

/-- `PowellAutoDiff::operator()`: seed, evaluate `powell_autodiff`, extract
the gradient and value. -/
noncomputable def PowellAutoDiff.call (s : PowellAutoDiff) (x grad : List ℝ) :
    Option (ℝ × List ℝ) × PowellAutoDiff :=
  (do
    let x_jet ← seedList s.n x
    let f_jet ← powell_autodiff x_jet
    let grad2 ← writeGrad f_jet.v grad 0
    pure (f_jet.a, grad2), s)

/-- `RosenbrockAutoDiff` from `src/rosenbrock.cpp` lines 45-72: the stored
dimensionality `n`. -/
structure RosenbrockAutoDiff where
  n : ℕ

/-- `RosenbrockAutoDiff::operator()`: seed, evaluate `rosenbrock_autodiff`,
extract the gradient and value. -/
noncomputable def RosenbrockAutoDiff.call (s : RosenbrockAutoDiff) (x grad : List ℝ) :
    Option (ℝ × List ℝ) × RosenbrockAutoDiff :=
  (do
    let x_jet ← seedList s.n x
    let f_jet ← rosenbrock_autodiff x_jet
    let grad2 ← writeGrad f_jet.v grad 0
    pure (f_jet.a, grad2), s)

/-- `ExpFitAutoDiff` from `src/exponential.cpp` lines 39-67: the stored data
tables (`const` members). -/
structure ExpFitAutoDiff where
  x_data : List ℝ
  y_data : List ℝ

/-- `ExpFitAutoDiff::operator()` (`src/exponential.cpp` lines 48-66):
hard-coded two-dimensional seeds `m = JetT(params[0], (1,0))`,
`c = JetT(params[1], (0,1))`, the data loop, then `grad[0] = loss.v[0]`,
`grad[1] = loss.v[1]`, returning `loss.a`. -/
noncomputable def ExpFitAutoDiff.call (f : ExpFitAutoDiff) (params grad : List ℝ) :
    Option (ℝ × List ℝ) × ExpFitAutoDiff :=
  (do
    let p0 ← params.get? 0
    let p1 ← params.get? 1
    let m : Jet ℝ 2 := ⟨p0, ![1, 0]⟩
    let c : Jet ℝ 2 := ⟨p1, ![0, 1]⟩
    let loss ← expFitLoop m c f.x_data f.y_data (Jet.C 0)
    let grad2 ← writeGrad loss.v grad 0
    pure (loss.a, grad2), f)

/-- The least-squares loss of the exponential example as a plain real-valued
function of the two parameters, written from the claim's words: the sum over
the data points of `(exp(m*x_i + c) - y_i)^2`. -/
noncomputable def expLoss (xd yd : List ℝ) (m c : ℝ) : ℝ :=
  ((xd.zip yd).map fun q => (Real.exp (m * q.1 + c) - q.2) ^ 2).sum

/-! ## The bound-constrained minimizer (external-collaborator contract)

The LBFGSB solver itself is the external LBFGSpp library; only its callers
are under `src/`.  Per §2/§4.3 of the spec the minimizer "iteratively updates
a candidate point ... while projecting onto a box of lower/upper bounds"; the
model below keeps the projection and abstracts the quasi-Newton/line-search
proposal into an arbitrary `step` function.  Reals are modelled by `ℚ` here
and an infinite bound (`-infinity`/`+infinity` in `src/powell.cpp` lines
92-93) by `none`. -/

/-- Modelled from the spec: the `Bounds` pair of §3 — per-axis lower and
upper bounds, `none` standing for an infinite (absent) bound. -/
structure Bounds (n : ℕ) where
  lower : Fin n → Option ℚ
  upper : Fin n → Option ℚ

/-- Clamp from below against an optional lower bound. -/
def clampLo : Option ℚ → ℚ → ℚ
  | none, t => t
  | some l, t => max l t

/-- Clamp from above against an optional upper bound. -/
def clampHi : Option ℚ → ℚ → ℚ
  | none, t => t
  | some u, t => min u t

/-- Modelled from the spec: projection of a candidate point onto the bound
box (§2: "projecting onto a box of lower/upper bounds"). -/
def Bounds.project {n : ℕ} (b : Bounds n) (x : Fin n → ℚ) : Fin n → ℚ :=
  fun i => clampHi (b.upper i) (clampLo (b.lower i) (x i))

/-- Every component of `x` lies within `[lower[i], upper[i]]`; an infinite
bound constrains nothing. -/
def Bounds.inBox {n : ℕ} (b : Bounds n) (x : Fin n → ℚ) : Prop :=
  ∀ i : Fin n, (∀ l, b.lower i = some l → l ≤ x i) ∧
    (∀ u, b.upper i = some u → x i ≤ u)

/-- `lower[i] <= upper[i]` wherever both bounds are finite (§3: violated
bounds are a configuration error). -/
def Bounds.ok {n : ℕ} (b : Bounds n) : Prop :=
  ∀ i : Fin n, ∀ l, b.lower i = some l → ∀ u, b.upper i = some u → l ≤ u

/-- Modelled from the spec: the sequence of parameter vectors the minimizer
evaluates.  `minIter b step x0 k` is the k-th point handed to the objective
evaluator: the projected initial point, then the projection of each proposed
update of the previous iterate (§4.3: the internal proposal machinery is the
external library's; only the projection onto the box is part of the
contract). -/
def minIter {n : ℕ} (b : Bounds n) (step : ℕ → (Fin n → ℚ) → (Fin n → ℚ))
    (x0 : Fin n → ℚ) : ℕ → (Fin n → ℚ)
  | 0 => b.project x0
  | k + 1 => b.project (step k (minIter b step x0 k))

/-- The bounds of the Powell run, `src/powell.cpp` lines 90-93: `[-2, 2]` on
every axis, except axis 2 which is `[-infinity, +infinity]`. -/
def powellBounds : Bounds 4 :=
  ⟨fun i => if (i : ℕ) = 2 then none else some (-2),
   fun i => if (i : ℕ) = 2 then none else some 2⟩

/-! ## Projection lemmas for the `Jet` arithmetic -/

namespace Jet

variable {α : Type} {n : ℕ}

@[simp] theorem C_a [Zero α] (s : α) : (C s : Jet α n).a = s := rfl

@[simp] theorem C_v [Zero α] (s : α) (i : Fin n) : (C s : Jet α n).v i = 0 := rfl

@[simp] theorem add_a [Add α] (f g : Jet α n) : (f + g).a = f.a + g.a := rfl

@[simp] theorem add_v [Add α] (f g : Jet α n) (i : Fin n) :
    (f + g).v i = f.v i + g.v i := rfl

@[simp] theorem sub_a [Sub α] (f g : Jet α n) : (f - g).a = f.a - g.a := rfl

@[simp] theorem sub_v [Sub α] (f g : Jet α n) (i : Fin n) :
    (f - g).v i = f.v i - g.v i := rfl

@[simp] theorem neg_a [Neg α] (f : Jet α n) : (-f).a = -f.a := rfl

@[simp] theorem neg_v [Neg α] (f : Jet α n) (i : Fin n) : (-f).v i = -f.v i := rfl

@[simp] theorem mul_a [Mul α] [Add α] (f g : Jet α n) : (f * g).a = f.a * g.a := rfl

@[simp] theorem mul_v [Mul α] [Add α] (f g : Jet α n) (i : Fin n) :
    (f * g).v i = f.a * g.v i + g.a * f.v i := rfl

@[simp] theorem div_a [Div α] [Sub α] [Mul α] (f g : Jet α n) :
    (f / g).a = f.a / g.a := rfl

@[simp] theorem div_v [Div α] [Sub α] [Mul α] (f g : Jet α n) (i : Fin n) :
    (f / g).v i = (f.v i - f.a / g.a * g.v i) / g.a := rfl

@[simp] theorem zero_a [Zero α] : (0 : Jet α n).a = 0 := rfl

@[simp] theorem zero_v [Zero α] (i : Fin n) : (0 : Jet α n).v i = 0 := rfl

@[simp] theorem one_a [Zero α] [One α] : (1 : Jet α n).a = 1 := rfl

@[simp] theorem one_v [Zero α] [One α] (i : Fin n) : (1 : Jet α n).v i = 0 := rfl

@[simp] theorem pow_a [CommRing α] (f : Jet α n) (k : ℕ) : (f ^ k).a = f.a ^ k := by
  induction k with
  | zero => simp [pow_zero]
  | succ k ih => simp [pow_succ, ih]

theorem pow_v [CommRing α] (f : Jet α n) (k : ℕ) (i : Fin n) :
    (f ^ k).v i = (k : α) * f.a ^ (k - 1) * f.v i := by
  induction k with
  | zero => simp [pow_zero]
  | succ k ih =>
    rw [pow_succ]
    rw [mul_v, pow_a, ih]
    cases k with
    | zero => simp
    | succ j =>
      push_cast
      rw [pow_succ]
      ring

end Jet

@[simp] theorem jetExp_a {n : ℕ} (f : Jet ℝ n) : (jetExp f).a = Real.exp f.a := rfl

@[simp] theorem jetExp_v {n : ℕ} (f : Jet ℝ n) (i : Fin n) :
    (jetExp f).v i = Real.exp f.a * f.v i := rfl

/-- Claim C3: for all dual numbers `a` and `b` carrying derivative sequences
of the same length `n`, every binary operation among `+`, `-`, `*`, `/` and
power satisfies `value(f(a,b)) = f(value(a), value(b))` and
`derivatives(f(a,b)) = df/da * derivatives(a) + df/db * derivatives(b)`
component-wise (for `/` on condition `value(b) ≠ 0`, where
`df/da = 1/value(b)` and `df/db = -value(a)/value(b)^2`; for `pow` with
natural exponent `k`, `df/da = k * value(a)^(k-1)`), and the unary `exp`
satisfies `derivatives(exp(a)) = exp(value(a)) * derivatives(a)`. -/
theorem jet_chain_rule {n : ℕ} (a b : Jet ℝ n) (hb : b.a ≠ 0) :
    ((a + b).a = a.a + b.a ∧ ∀ i, (a + b).v i = a.v i + b.v i) ∧
    ((a - b).a = a.a - b.a ∧ ∀ i, (a - b).v i = a.v i - b.v i) ∧
    ((a * b).a = a.a * b.a ∧ ∀ i, (a * b).v i = b.a * a.v i + a.a * b.v i) ∧
    ((a / b).a = a.a / b.a ∧
      ∀ i, (a / b).v i = 1 / b.a * a.v i + -(a.a / b.a ^ 2) * b.v i) ∧
    (∀ k : ℕ, (a ^ k).a = a.a ^ k ∧
      ∀ i, (a ^ k).v i = (k : ℝ) * a.a ^ (k - 1) * a.v i) ∧
    ((jetExp a).a = Real.exp a.a ∧
      ∀ i, (jetExp a).v i = Real.exp a.a * a.v i) := by
  refine ⟨⟨rfl, fun i => rfl⟩, ⟨rfl, fun i => rfl⟩,
    ⟨rfl, fun i => by rw [Jet.mul_v]; ring⟩, ⟨rfl, fun i => ?_⟩,
    fun k => ⟨Jet.pow_a a k, fun i => Jet.pow_v a k i⟩, rfl, fun i => rfl⟩
  rw [Jet.div_v]
  field_simp
  ring

/-- Witness for C3 at a concrete pair of dual numbers (`n = 1`,
`a = ⟨3, (5)⟩`, `b = ⟨2, (7)⟩`): the divisor's value `2` is nonzero and the
chain-rule identities hold there. -/
theorem jet_chain_rule_witness :
    ((⟨2, fun _ => 7⟩ : Jet ℝ 1).a ≠ 0) ∧
    (((⟨3, fun _ => 5⟩ : Jet ℝ 1) / ⟨2, fun _ => 7⟩).a = 3 / 2 ∧
      ∀ i, ((⟨3, fun _ => 5⟩ : Jet ℝ 1) / ⟨2, fun _ => 7⟩).v i
        = 1 / 2 * 5 + -((3 : ℝ) / 2 ^ 2) * 7) := by
  have h2 : ((⟨2, fun _ => 7⟩ : Jet ℝ 1).a ≠ 0) := by
    show (2 : ℝ) ≠ 0
    norm_num
  have h := jet_chain_rule (⟨3, fun _ => 5⟩ : Jet ℝ 1) ⟨2, fun _ => 7⟩ h2
  exact ⟨h2, h.2.2.2.1.1, fun i => h.2.2.2.1.2 i⟩

/-! ## The seeding loop -/

/-- Behaviour of the seeding loop from index `i` on, when `x` is long enough:
it succeeds, produces one jet per remaining index, and the jet for index
`i + k` carries value `x[i+k]` and the `(i+k)`-th unit derivative vector. -/
theorem seedGo_spec (n : ℕ) (x : List ℝ) (h : n ≤ x.length) (i : ℕ) :
    ∃ l, seedGo n x i = some l ∧ l.length = n - i ∧
      ∀ k, i + k < n → ∃ xi, x.get? (i + k) = some xi ∧
        l.get? k = some ⟨xi, fun j => if (j : ℕ) = i + k then 1 else 0⟩ := by
  have H : ∀ d i, n - i ≤ d →
      ∃ l, seedGo n x i = some l ∧ l.length = n - i ∧
        ∀ k, i + k < n → ∃ xi, x.get? (i + k) = some xi ∧
          l.get? k = some ⟨xi, fun j => if (j : ℕ) = i + k then 1 else 0⟩ := by
    intro d
    induction d with
    | zero =>
      intro i hdi
      have hi : ¬ i < n := by omega
      rw [seedGo, if_neg hi]
      exact ⟨[], rfl, by simp only [List.length_nil]; omega,
        fun k hk => absurd hk (by omega)⟩
    | succ d ih =>
      intro i hdi
      by_cases hi : i < n
      · have hix : i < x.length := lt_of_lt_of_le hi h
        have hxi : x.get? i = some (x.get ⟨i, hix⟩) := List.get?_eq_get hix
        obtain ⟨l, hl, hlen, hk⟩ := ih (i + 1) (by omega)
        refine ⟨(⟨x.get ⟨i, hix⟩, fun j => if (j : ℕ) = i then 1 else 0⟩ : Jet ℝ n) :: l,
          ?_, by simp [hlen]; omega, ?_⟩
        · rw [seedGo, if_pos hi, hxi, hl]
          rfl
        · intro k hik
          cases k with
          | zero =>
            exact ⟨x.get ⟨i, hix⟩, by simp only [Nat.add_zero]; exact hxi, by simp⟩
          | succ k =>
            obtain ⟨xi, hxi', hji⟩ := hk k (by omega)
            have harith : i + 1 + k = i + (k + 1) := by omega
            rw [harith] at hxi' hji
            exact ⟨xi, hxi', by simpa using hji⟩
      · rw [seedGo, if_neg hi]
        exact ⟨[], rfl, by simp only [List.length_nil]; omega,
          fun k hk => absurd hk (by omega)⟩
  exact H (n - i) i le_rfl

/-- Claim C2: for every input vector `x`, dimensionality `n ≥ 1` (with `x`
at least that long, as at every call site) and index `i < n`, the seeded
dual number at index `i` has value `x[i]` and its derivative sequence is the
`i`-th standard basis vector: `1.0` at position `i`, `0.0` elsewhere. -/
theorem seed_basis (n : ℕ) (x : List ℝ) (hn : 1 ≤ n) (hx : n ≤ x.length)
    (i : ℕ) (hi : i < n) :
    ∃ jets xi, seedList n x = some jets ∧ jets.length = n ∧
      x.get? i = some xi ∧
      jets.get? i = some ⟨xi, fun j => if (j : ℕ) = i then 1 else 0⟩ := by
  obtain ⟨l, hl, hlen, hk⟩ := seedGo_spec n x hx 0
  obtain ⟨xi, hxi, hji⟩ := hk i (by omega)
  rw [Nat.zero_add] at hxi hji
  exact ⟨l, xi, hl, by omega, hxi, hji⟩

/-- Witness for C2 at `n = 2`, `x = (5, 7)`, `i = 1`: the hypotheses hold
and the seeded jet at index 1 is `⟨7, (0, 1)⟩`. -/
theorem seed_basis_witness :
    (1 ≤ 2 ∧ 2 ≤ [(5 : ℝ), 7].length ∧ 1 < 2) ∧
    ∃ jets xi, seedList 2 [(5 : ℝ), 7] = some jets ∧ jets.length = 2 ∧
      [(5 : ℝ), 7].get? 1 = some xi ∧
      jets.get? 1 = some ⟨xi, fun j => if (j : ℕ) = 1 then 1 else 0⟩ :=
  ⟨⟨by omega, by simp, by omega⟩,
    seed_basis 2 [(5 : ℝ), 7] (by omega) (by simp) 1 (by omega)⟩

/-! ## The Rosenbrock objective -/

/-- The Rosenbrock accumulation loop computes the running value plus the sum
of `4 * (x[i] - x[i-1]^2)^2` over consecutive pairs. -/
theorem rosenGo_spec : ∀ (rest : List ℝ) (prev fx : ℝ),
    rosenGo prev rest fx
      = fx + (((prev :: rest).zip rest).map fun q => 4 * (q.2 - q.1 ^ 2) ^ 2).sum := by
  intro rest
  induction rest with
  | nil => intro prev fx; simp [rosenGo]
  | cons xi tl ih =>
    intro prev fx
    rw [rosenGo, ih]
    rw [List.zip_cons_cons, List.map_cons, List.sum_cons]
    ring

/-- Claim C9: for every vector of size `n ≥ 1` (a head `x0` and a tail
`rest`), `rosenbrock_autodiff` returns `(x0 - 1)^2` plus the sum over
consecutive pairs of `4 * (x[i] - x[i-1]^2)^2`; for a vector of size exactly
one the sum is empty and the result is `(x0 - 1)^2`. -/
theorem rosenbrock_closed_form (x0 : ℝ) (rest : List ℝ) :
    rosenbrock_autodiff (x0 :: rest)
      = some ((x0 - 1) ^ 2
          + (((x0 :: rest).zip rest).map fun q => 4 * (q.2 - q.1 ^ 2) ^ 2).sum) ∧
    rosenbrock_autodiff [x0] = some ((x0 - 1) ^ 2) := by
  constructor
  · show some (rosenGo x0 rest ((x0 - 1) * (x0 - 1))) = _
    rw [rosenGo_spec]
    exact congrArg some (by ring)
  · show some (rosenGo x0 [] ((x0 - 1) * (x0 - 1))) = _
    rw [rosenGo_spec]
    exact congrArg some (by simp; ring)

/-! ## The bounds invariant -/

/-- Projection onto a well-formed box always lands inside the box. -/
theorem project_inBox {n : ℕ} (b : Bounds n) (hb : b.ok) (x : Fin n → ℚ) :
    b.inBox (b.project x) := by
  intro i
  show (∀ l, b.lower i = some l → l ≤ clampHi (b.upper i) (clampLo (b.lower i) (x i))) ∧
    (∀ u, b.upper i = some u → clampHi (b.upper i) (clampLo (b.lower i) (x i)) ≤ u)
  constructor
  · intro l hl
    rw [hl]
    cases hu : b.upper i with
    | none => exact le_max_left l (x i)
    | some u =>
      have hlu : l ≤ u := hb i l hl u hu
      exact le_min hlu (le_max_left l (x i))
  · intro u hu
    rw [hu]
    exact min_le_left u _

/-- Every iterate of the modelled minimizer is a projection, hence in the
box. -/
theorem minIter_inBox {n : ℕ} (b : Bounds n) (hb : b.ok)
    (step : ℕ → (Fin n → ℚ) → (Fin n → ℚ)) (x0 : Fin n → ℚ) (k : ℕ) :
    b.inBox (minIter b step x0 k) := by
  cases k with
  | zero => exact project_inBox b hb x0
  | succ k => exact project_inBox b hb _

/-- The Powell bounds of `src/powell.cpp` lines 90-93 are well formed. -/
theorem powellBounds_ok : powellBounds.ok := by
  intro i l hl u hu
  by_cases h : (i : ℕ) = 2
  · simp [powellBounds, h] at hl
  · simp [powellBounds, h] at hl hu
    rw [← hl, ← hu]
    norm_num

/-- Claim C5: for every `minimize` run with bounds `b` (axes with an
infinite bound unconstrained), every parameter vector the minimizer
evaluates — the projected start and every subsequent projected proposal,
whatever the proposal machinery `step` does — has each component inside
`[lower[i], upper[i]]`; in particular every iterate of the Powell run with
bounds `[-2, 2]` on axes 0, 1 and 3 (axis 2 unbounded) satisfies this. -/
theorem minimize_bounds_invariant {n : ℕ} (b : Bounds n)
    (step : ℕ → (Fin n → ℚ) → (Fin n → ℚ)) (x0 : Fin n → ℚ) (hb : b.ok) :
    (∀ k, b.inBox (minIter b step x0 k)) ∧
    ∀ (pstep : ℕ → (Fin 4 → ℚ) → (Fin 4 → ℚ)) (y0 : Fin 4 → ℚ) (k : ℕ),
      powellBounds.inBox (minIter powellBounds pstep y0 k) :=
  ⟨fun k => minIter_inBox b hb step x0 k,
   fun pstep y0 k => minIter_inBox powellBounds powellBounds_ok pstep y0 k⟩

/-- Witness for C5: the Powell bounds are well formed, and a concrete
iterate (constant proposal machinery, start at the origin, step 3) lies in
the box. -/
theorem minimize_bounds_invariant_witness :
    powellBounds.ok ∧
    powellBounds.inBox (minIter powellBounds (fun _ x => x) (fun _ => 0) 3) :=
  ⟨powellBounds_ok,
   (minimize_bounds_invariant powellBounds (fun _ x => x) (fun _ => 0)
     powellBounds_ok).1 3⟩

/-! ## The gradient-write loop -/

/-- When the gradient buffer is long enough, the write loop starting at `i`
succeeds, preserves the length, writes `v[j]` at every position
`i ≤ j < n` and leaves every other position unchanged. -/
theorem writeGrad_spec {n : ℕ} (v : Fin n → ℝ) (i : ℕ) (grad : List ℝ)
    (hlen : n ≤ grad.length) :
    ∃ g2, writeGrad v grad i = some g2 ∧ g2.length = grad.length ∧
      (∀ j, j < i → g2.get? j = grad.get? j) ∧
      (∀ j, ∀ hj : j < n, i ≤ j → g2.get? j = some (v ⟨j, hj⟩)) ∧
      (∀ j, n ≤ j → g2.get? j = grad.get? j) := by
  have H : ∀ d i (grad : List ℝ), n ≤ grad.length → n - i ≤ d →
      ∃ g2, writeGrad v grad i = some g2 ∧ g2.length = grad.length ∧
        (∀ j, j < i → g2.get? j = grad.get? j) ∧
        (∀ j, ∀ hj : j < n, i ≤ j → g2.get? j = some (v ⟨j, hj⟩)) ∧
        (∀ j, n ≤ j → g2.get? j = grad.get? j) := by
    intro d
    induction d with
    | zero =>
      intro i grad hl hdi
      have hi : ¬ i < n := by omega
      rw [writeGrad, dif_neg hi]
      exact ⟨grad, rfl, rfl, fun j _ => rfl,
        fun j hj hij => absurd hj (by omega), fun j _ => rfl⟩
    | succ d ih =>
      intro i grad hl hdi
      by_cases hi : i < n
      · have hig : i < grad.length := lt_of_lt_of_le hi hl
        obtain ⟨g2, hg2, hlen2, hpre, hwr, hsuf⟩ :=
          ih (i + 1) (grad.set i (v ⟨i, hi⟩))
            (by rw [List.length_set]; exact hl) (by omega)
        refine ⟨g2, ?_, ?_, ?_, ?_, ?_⟩
        · rw [writeGrad, dif_pos hi, if_pos hig]
          exact hg2
        · rw [hlen2, List.length_set]
        · intro j hj
          rw [hpre j (by omega), List.get?_set_of_lt' _ _ hig, if_neg (by omega)]
        · intro j hj hij
          rcases Nat.eq_or_lt_of_le hij with rfl | hlt
          · rw [hpre i (by omega), List.get?_set_of_lt' _ _ hig, if_pos rfl]
          · exact hwr j hj hlt
        · intro j hj
          rw [hsuf j hj, List.get?_set_of_lt' _ _ hig, if_neg (by omega)]
      · rw [writeGrad, dif_neg hi]
        exact ⟨grad, rfl, rfl, fun j _ => rfl,
          fun j hj hij => absurd hj (by omega), fun j _ => rfl⟩
  exact H (n - i) i grad hlen le_rfl

/-- When the gradient buffer is too short, the write loop runs off its end:
the write at index `grad.length` is out of bounds. -/
theorem writeGrad_short {n : ℕ} (v : Fin n → ℝ) (i : ℕ) (grad : List ℝ)
    (hi : i ≤ grad.length) (hlen : grad.length < n) :
    writeGrad v grad i = none := by
  have H : ∀ d i (grad : List ℝ), i ≤ grad.length → grad.length < n →
      n - i ≤ d → writeGrad v grad i = none := by
    intro d
    induction d with
    | zero => intro i grad hi hl hdi; omega
    | succ d ih =>
      intro i grad hi hl hdi
      have hin : i < n := by omega
      rcases Nat.eq_or_lt_of_le hi with he | hlt
      · rw [writeGrad, dif_pos hin, if_neg (by omega)]
      · rw [writeGrad, dif_pos hin, if_pos hlt]
        exact ih (i + 1) _ (by rw [List.length_set]; omega)
          (by rw [List.length_set]; omega) (by omega)
  exact H (n - i) i grad hi hlen le_rfl

/-- Two write loops over buffers of the same length either both fail or both
succeed with the same written values at every position below `n`. -/
theorem writeGrad_out_eq {n : ℕ} (v : Fin n → ℝ) (g g' : List ℝ)
    (hlen : g.length = g'.length) :
    (writeGrad v g 0 = none ∧ writeGrad v g' 0 = none) ∨
    (∃ g2 g2', writeGrad v g 0 = some g2 ∧ writeGrad v g' 0 = some g2' ∧
      ∀ j, ∀ hj : j < n, g2.get? j = some (v ⟨j, hj⟩) ∧
        g2'.get? j = some (v ⟨j, hj⟩)) := by
  by_cases h : n ≤ g.length
  · obtain ⟨g2, hg2, _, _, hwr, _⟩ := writeGrad_spec v 0 g h
    obtain ⟨g2', hg2', _, _, hwr', _⟩ := writeGrad_spec v 0 g' (hlen ▸ h)
    exact Or.inr ⟨g2, g2', hg2, hg2',
      fun j hj => ⟨hwr j hj (Nat.zero_le j), hwr' j hj (Nat.zero_le j)⟩⟩
  · exact Or.inl ⟨writeGrad_short v 0 g (Nat.zero_le _) (by omega),
      writeGrad_short v 0 g' (Nat.zero_le _) (by omega)⟩

/-! ## The exponential data loop -/

/-- Value of one residual jet of the exponential fit. -/
theorem expPoint_a (mv cv x y : ℝ) :
    (exp_model (Jet.C x) ⟨mv, ![1, 0]⟩ ⟨cv, ![0, 1]⟩ - Jet.C y).a
      = Real.exp (mv * x + cv) - y := by
  simp [exp_model]

/-- First derivative component of one residual jet (with respect to `m`). -/
theorem expPoint_v0 (mv cv x y : ℝ) :
    (exp_model (Jet.C x) ⟨mv, ![1, 0]⟩ ⟨cv, ![0, 1]⟩ - Jet.C y).v 0
      = Real.exp (mv * x + cv) * x := by
  simp [exp_model]

/-- Second derivative component of one residual jet (with respect to `c`). -/
theorem expPoint_v1 (mv cv x y : ℝ) :
    (exp_model (Jet.C x) ⟨mv, ![1, 0]⟩ ⟨cv, ![0, 1]⟩ - Jet.C y).v 1
      = Real.exp (mv * x + cv) := by
  simp [exp_model]

/-- The exponential data loop, with the two-dimensional hard-coded seeds of
`ExpFitAutoDiff::operator()`, accumulates exactly the least-squares loss in
its value slot and its two partial derivatives in the derivative slots, as
long as `y_data` keeps up with `x_data`. -/
theorem expFitLoop_spec (mv cv : ℝ) : ∀ (xs ys : List ℝ) (loss : Jet ℝ 2),
    xs.length ≤ ys.length →
    ∃ L, expFitLoop ⟨mv, ![1, 0]⟩ ⟨cv, ![0, 1]⟩ xs ys loss = some L ∧
      L.a = loss.a
        + ((xs.zip ys).map fun q => (Real.exp (mv * q.1 + cv) - q.2) ^ 2).sum ∧
      L.v 0 = loss.v 0 + ((xs.zip ys).map fun q =>
        2 * (Real.exp (mv * q.1 + cv) - q.2) * Real.exp (mv * q.1 + cv) * q.1).sum ∧
      L.v 1 = loss.v 1 + ((xs.zip ys).map fun q =>
        2 * (Real.exp (mv * q.1 + cv) - q.2) * Real.exp (mv * q.1 + cv)).sum := by
  intro xs
  induction xs with
  | nil =>
    intro ys loss _
    exact ⟨loss, rfl, by simp, by simp, by simp⟩
  | cons x xs ih =>
    intro ys loss h
    cases ys with
    | nil => simp at h
    | cons y ys =>
      obtain ⟨L, hL, ha, h0, h1⟩ := ih ys
        (loss + (exp_model (Jet.C x) ⟨mv, ![1, 0]⟩ ⟨cv, ![0, 1]⟩ - Jet.C y)
          * (exp_model (Jet.C x) ⟨mv, ![1, 0]⟩ ⟨cv, ![0, 1]⟩ - Jet.C y))
        (by simpa using h)
      refine ⟨L, hL, ?_, ?_, ?_⟩
      · rw [ha, Jet.add_a, Jet.mul_a, expPoint_a,
          List.zip_cons_cons, List.map_cons, List.sum_cons]
        ring
      · rw [h0, Jet.add_v, Jet.mul_v, expPoint_a, expPoint_v0,
          List.zip_cons_cons, List.map_cons, List.sum_cons]
        ring
      · rw [h1, Jet.add_v, Jet.mul_v, expPoint_a, expPoint_v1,
          List.zip_cons_cons, List.map_cons, List.sum_cons]
        ring

/-- Derivative in `m` of one least-squares term. -/
theorem expTerm_hasDerivAt_m (cv mv x y : ℝ) :
    HasDerivAt (fun t => (Real.exp (t * x + cv) - y) ^ 2)
      (2 * (Real.exp (mv * x + cv) - y) * Real.exp (mv * x + cv) * x) mv := by
  have h1 : HasDerivAt (fun t : ℝ => t * x + cv) x mv := by
    simpa using ((hasDerivAt_id mv).mul_const x).add_const cv
  have h4 := ((h1.exp).sub_const y).pow 2
  convert h4 using 1
  rw [pow_one]
  ring

/-- Derivative in `c` of one least-squares term. -/
theorem expTerm_hasDerivAt_c (cv mv x y : ℝ) :
    HasDerivAt (fun t => (Real.exp (mv * x + t) - y) ^ 2)
      (2 * (Real.exp (mv * x + cv) - y) * Real.exp (mv * x + cv)) cv := by
  have h1 : HasDerivAt (fun t : ℝ => mv * x + t) 1 cv := by
    simpa using (hasDerivAt_id cv).const_add (mv * x)
  have h4 := ((h1.exp).sub_const y).pow 2
  convert h4 using 1
  rw [pow_one]
  ring

/-- Derivative in `m` of the summed least-squares loss over a data list. -/
theorem expSum_hasDerivAt_m (cv mv : ℝ) : ∀ L : List (ℝ × ℝ),
    HasDerivAt (fun t => (L.map fun q => (Real.exp (t * q.1 + cv) - q.2) ^ 2).sum)
      ((L.map fun q =>
        2 * (Real.exp (mv * q.1 + cv) - q.2) * Real.exp (mv * q.1 + cv) * q.1).sum)
      mv := by
  intro L
  induction L with
  | nil => simpa using hasDerivAt_const mv (0 : ℝ)
  | cons q L ih =>
    simp only [List.map_cons, List.sum_cons]
    exact (expTerm_hasDerivAt_m cv mv q.1 q.2).add ih

/-- Derivative in `c` of the summed least-squares loss over a data list. -/
theorem expSum_hasDerivAt_c (cv mv : ℝ) : ∀ L : List (ℝ × ℝ),
    HasDerivAt (fun t => (L.map fun q => (Real.exp (mv * q.1 + t) - q.2) ^ 2).sum)
      ((L.map fun q =>
        2 * (Real.exp (mv * q.1 + cv) - q.2) * Real.exp (mv * q.1 + cv)).sum)
      cv := by
  intro L
  induction L with
  | nil => simpa using hasDerivAt_const cv (0 : ℝ)
  | cons q L ih =>
    simp only [List.map_cons, List.sum_cons]
    exact (expTerm_hasDerivAt_c cv mv q.1 q.2).add ih

/-- Claim C1: one call to the exponential objective evaluator adapter seeds
the two dual numbers, evaluates the objective once, and returns
`value = loss.value` and `gradient[i] = loss.derivatives[i]`; the returned
value equals the sum over the data points of `(exp(m*x_i + c) - y_i)^2`
(the `expLoss` function) and the returned gradient equals the pair of its
partial derivatives with respect to `m` and `c`. -/
theorem expFit_adapter_value_and_gradient (xd yd params grad : List ℝ)
    (hd : xd.length ≤ yd.length) (hp : 2 ≤ params.length)
    (hg : 2 ≤ grad.length) :
    ∃ p0 p1 val g2 d0 d1,
      params.get? 0 = some p0 ∧ params.get? 1 = some p1 ∧
      (ExpFitAutoDiff.call ⟨xd, yd⟩ params grad).1 = some (val, g2) ∧
      val = expLoss xd yd p0 p1 ∧
      g2.get? 0 = some d0 ∧ g2.get? 1 = some d1 ∧
      HasDerivAt (fun t => expLoss xd yd t p1) d0 p0 ∧
      HasDerivAt (fun t => expLoss xd yd p0 t) d1 p1 := by
  have hp0 : params.get? 0 = some (params.get ⟨0, by omega⟩) :=
    List.get?_eq_get (by omega)
  have hp1 : params.get? 1 = some (params.get ⟨1, by omega⟩) :=
    List.get?_eq_get (by omega)
  obtain ⟨L, hL, ha, hv0, hv1⟩ :=
    expFitLoop_spec (params.get ⟨0, by omega⟩) (params.get ⟨1, by omega⟩)
      xd yd (Jet.C 0) hd
  obtain ⟨g2, hg2, hlen2, _, hwr, _⟩ := writeGrad_spec L.v 0 grad hg
  refine ⟨_, _, L.a, g2, L.v 0, L.v 1, hp0, hp1, ?_, ?_, ?_, ?_, ?_, ?_⟩
  · simp only [ExpFitAutoDiff.call, hp0, hp1, hL, hg2,
      Option.bind_eq_bind', Option.some_bind']
    rfl
  · rw [ha]
    simp only [Jet.C_a, zero_add, expLoss]
  · exact hwr 0 (by omega) (by omega)
  · exact hwr 1 (by omega) (by omega)
  · rw [hv0]
    simp only [Jet.C_v, zero_add, expLoss]
    exact expSum_hasDerivAt_m _ _ (xd.zip yd)
  · rw [hv1]
    simp only [Jet.C_v, zero_add, expLoss]
    exact expSum_hasDerivAt_c _ _ (xd.zip yd)

/-- Witness for C1 at one data point `(0, 0)`, parameters `(0, 0)` and a
two-slot gradient buffer. -/
theorem expFit_adapter_value_and_gradient_witness :
    ([(0 : ℝ)].length ≤ [(0 : ℝ)].length ∧ 2 ≤ [(0 : ℝ), 0].length ∧
      2 ≤ [(0 : ℝ), 0].length) ∧
    ∃ p0 p1 val g2 d0 d1,
      [(0 : ℝ), 0].get? 0 = some p0 ∧ [(0 : ℝ), 0].get? 1 = some p1 ∧
      (ExpFitAutoDiff.call ⟨[(0 : ℝ)], [(0 : ℝ)]⟩ [0, 0] [0, 0]).1
        = some (val, g2) ∧
      val = expLoss [(0 : ℝ)] [(0 : ℝ)] p0 p1 ∧
      g2.get? 0 = some d0 ∧ g2.get? 1 = some d1 ∧
      HasDerivAt (fun t => expLoss [(0 : ℝ)] [(0 : ℝ)] t p1) d0 p0 ∧
      HasDerivAt (fun t => expLoss [(0 : ℝ)] [(0 : ℝ)] p0 t) d1 p1 :=
  ⟨⟨by simp, by simp, by simp⟩,
   expFit_adapter_value_and_gradient [(0 : ℝ)] [(0 : ℝ)] [0, 0] [0, 0]
     (by simp) (by simp) (by simp)⟩

/-! ## Adapter call behaviour -/

/-- The full seeding loop, when `x` is long enough: one jet per index `k < n`
with value `x[k]` and the `k`-th unit derivative vector. -/
theorem seedList_spec (n : ℕ) (x : List ℝ) (h : n ≤ x.length) :
    ∃ jets, seedList n x = some jets ∧ jets.length = n ∧
      ∀ k, k < n → ∃ xi, x.get? k = some xi ∧
        jets.get? k = some ⟨xi, fun j => if (j : ℕ) = k then 1 else 0⟩ := by
  obtain ⟨l, hl, hlen, hk⟩ := seedGo_spec n x h 0
  refine ⟨l, hl, by omega, fun k hkn => ?_⟩
  obtain ⟨xi, h1, h2⟩ := hk k (by omega)
  rw [Nat.zero_add] at h1 h2
  exact ⟨xi, h1, h2⟩

/-- A call to the quadratic adapter with `n ≥ 1` and long-enough vectors
succeeds, leaves the adapter unchanged, writes exactly `grad[0..n-1]` (the
derivative components of the objective jet) and leaves the rest of the
buffer alone. -/
theorem quadCall_spec (n : ℕ) (x grad : List ℝ) (hn : 1 ≤ n)
    (hx : n ≤ x.length) (hg : n ≤ grad.length) :
    ∃ (fj : Jet ℝ n) (g2 : List ℝ),
      SimpleQuadAutoDiff.call ⟨n⟩ x grad = (some (fj.a, g2), ⟨n⟩) ∧
      g2.length = grad.length ∧
      (∀ j, ∀ hj : j < n, g2.get? j = some (fj.v ⟨j, hj⟩)) ∧
      (∀ j, n ≤ j → g2.get? j = grad.get? j) := by
  obtain ⟨jets, hjets, hjl, hk⟩ := seedList_spec n x hx
  obtain ⟨x0, hx0, hj0⟩ := hk 0 (by omega)
  obtain ⟨g2, hg2, hlen2, _, hwr, hsuf⟩ :=
    writeGrad_spec (1 / 2 * (10 - (⟨x0, fun j => if (j : ℕ) = 0 then 1 else 0⟩ : Jet ℝ n))
      * (10 - ⟨x0, fun j => if (j : ℕ) = 0 then 1 else 0⟩)).v 0 grad hg
  refine ⟨_, g2, ?_, hlen2, fun j hj => hwr j hj (Nat.zero_le j), hsuf⟩
  simp only [SimpleQuadAutoDiff.call, hjets, simple_quad, hj0, Option.map_some',
    Option.bind_eq_bind', Option.some_bind', hg2]
  rfl

/-- A call to the Rosenbrock adapter with `n ≥ 1` and long-enough vectors
succeeds, leaves the adapter unchanged, writes exactly `grad[0..n-1]` and
leaves the rest of the buffer alone. -/
theorem rosenCall_spec (n : ℕ) (x grad : List ℝ) (hn : 1 ≤ n)
    (hx : n ≤ x.length) (hg : n ≤ grad.length) :
    ∃ (fj : Jet ℝ n) (g2 : List ℝ),
      RosenbrockAutoDiff.call ⟨n⟩ x grad = (some (fj.a, g2), ⟨n⟩) ∧
      g2.length = grad.length ∧
      (∀ j, ∀ hj : j < n, g2.get? j = some (fj.v ⟨j, hj⟩)) ∧
      (∀ j, n ≤ j → g2.get? j = grad.get? j) := by
  obtain ⟨jets, hjets, hjl, hk⟩ := seedList_spec n x hx
  cases jets with
  | nil => simp at hjl; omega
  | cons j0 rest =>
    obtain ⟨g2, hg2, hlen2, _, hwr, hsuf⟩ :=
      writeGrad_spec (rosenGo j0 rest ((j0 - 1) * (j0 - 1))).v 0 grad hg
    refine ⟨_, g2, ?_, hlen2, fun j hj => hwr j hj (Nat.zero_le j), hsuf⟩
    simp only [RosenbrockAutoDiff.call, hjets, rosenbrock_autodiff,
      Option.bind_eq_bind', Option.some_bind', hg2]
    rfl

/-- A call to the exponential adapter with aligned data tables and
long-enough vectors succeeds, leaves the adapter (its stored data tables)
unchanged, writes exactly `grad[0]` and `grad[1]` and leaves the rest of the
buffer alone. -/
theorem expCall_spec (f : ExpFitAutoDiff) (params grad : List ℝ)
    (hd : f.x_data.length ≤ f.y_data.length) (hp : 2 ≤ params.length)
    (hg : 2 ≤ grad.length) :
    ∃ (L : Jet ℝ 2) (g2 : List ℝ),
      f.call params grad = (some (L.a, g2), f) ∧
      g2.length = grad.length ∧
      (∀ j, ∀ hj : j < 2, g2.get? j = some (L.v ⟨j, hj⟩)) ∧
      (∀ j, 2 ≤ j → g2.get? j = grad.get? j) := by
  have hp0 : params.get? 0 = some (params.get ⟨0, by omega⟩) :=
    List.get?_eq_get (by omega)
  have hp1 : params.get? 1 = some (params.get ⟨1, by omega⟩) :=
    List.get?_eq_get (by omega)
  obtain ⟨L, hL, _, _, _⟩ :=
    expFitLoop_spec (params.get ⟨0, by omega⟩) (params.get ⟨1, by omega⟩)
      f.x_data f.y_data (Jet.C 0) hd
  obtain ⟨g2, hg2, hlen2, _, hwr, hsuf⟩ := writeGrad_spec L.v 0 grad hg
  refine ⟨L, g2, ?_, hlen2, fun j hj => hwr j hj (Nat.zero_le j), hsuf⟩
  simp only [ExpFitAutoDiff.call, hp0, hp1, hL, hg2,
    Option.bind_eq_bind', Option.some_bind']
  rfl

/-- Claim C8: a call to the objective evaluator adapter modifies nothing
except the output gradient argument.  In the state-passing embedding: the
adapter value returned next to the result equals the one passed in (the
stored dimension `n` of the quadratic adapter; the stored `x_data` and
`y_data` of the exponential adapter), and the output gradient buffer keeps
its length with every component at index `≥ n` unchanged — only
`grad[0..n-1]` is touched.  The input vector itself is a pure value in the
embedding, matching the `const Vector&` parameter. -/
theorem adapter_frame (n : ℕ) (x g : List ℝ) (f : ExpFitAutoDiff)
    (params gE : List ℝ)
    (hn : 1 ≤ n) (hx : n ≤ x.length) (hg : n ≤ g.length)
    (hd : f.x_data.length ≤ f.y_data.length) (hp : 2 ≤ params.length)
    (hgE : 2 ≤ gE.length) :
    (SimpleQuadAutoDiff.call ⟨n⟩ x g).2 = ⟨n⟩ ∧
    (∃ val g2, (SimpleQuadAutoDiff.call ⟨n⟩ x g).1 = some (val, g2) ∧
      g2.length = g.length ∧ ∀ j, n ≤ j → g2.get? j = g.get? j) ∧
    (f.call params gE).2 = f ∧
    (∃ val g2, (f.call params gE).1 = some (val, g2) ∧
      g2.length = gE.length ∧ ∀ j, 2 ≤ j → g2.get? j = gE.get? j) := by
  obtain ⟨fj, g2, hcall, hlen, _, hsuf⟩ := quadCall_spec n x g hn hx hg
  obtain ⟨L, gE2, hcallE, hlenE, _, hsufE⟩ := expCall_spec f params gE hd hp hgE
  exact ⟨rfl, ⟨fj.a, g2, by rw [hcall], hlen, hsuf⟩,
    rfl, ⟨L.a, gE2, by rw [hcallE], hlenE, hsufE⟩⟩

/-- Witness for C8 at concrete inputs: quadratic adapter with `n = 1`,
`x = (0)`, three-slot gradient buffer `(0, 0, 0)`; exponential adapter with
one data point and a three-slot buffer. -/
theorem adapter_frame_witness :
    (1 ≤ 1 ∧ 1 ≤ [(0 : ℝ)].length ∧ 1 ≤ [(0 : ℝ), 0, 0].length ∧
      (ExpFitAutoDiff.x_data ⟨[(0 : ℝ)], [(0 : ℝ)]⟩).length
        ≤ (ExpFitAutoDiff.y_data ⟨[(0 : ℝ)], [(0 : ℝ)]⟩).length ∧
      2 ≤ [(0 : ℝ), 0].length ∧ 2 ≤ [(0 : ℝ), 0, 0].length) ∧
    ((SimpleQuadAutoDiff.call ⟨1⟩ [(0 : ℝ)] [(0 : ℝ), 0, 0]).2 = ⟨1⟩ ∧
    (∃ val g2, (SimpleQuadAutoDiff.call ⟨1⟩ [(0 : ℝ)] [(0 : ℝ), 0, 0]).1
        = some (val, g2) ∧
      g2.length = [(0 : ℝ), 0, 0].length ∧
      ∀ j, 1 ≤ j → g2.get? j = [(0 : ℝ), 0, 0].get? j) ∧
    (ExpFitAutoDiff.call ⟨[(0 : ℝ)], [(0 : ℝ)]⟩ [0, 0] [(0 : ℝ), 0, 0]).2
      = ⟨[(0 : ℝ)], [(0 : ℝ)]⟩ ∧
    (∃ val g2, (ExpFitAutoDiff.call ⟨[(0 : ℝ)], [(0 : ℝ)]⟩ [0, 0]
        [(0 : ℝ), 0, 0]).1 = some (val, g2) ∧
      g2.length = [(0 : ℝ), 0, 0].length ∧
      ∀ j, 2 ≤ j → g2.get? j = [(0 : ℝ), 0, 0].get? j)) :=
  ⟨⟨by omega, by simp, by simp, by simp, by simp, by simp⟩,
   adapter_frame 1 [(0 : ℝ)] [(0 : ℝ), 0, 0] ⟨[(0 : ℝ)], [(0 : ℝ)]⟩ [0, 0]
     [(0 : ℝ), 0, 0] (by omega) (by simp) (by simp) (by simp) (by simp)
     (by simp)⟩

/-- Counterexample for C10 as stated: the claim's length hypotheses
(`x.length ≥ n`, `grad.length ≥ n`) are satisfied, yet a vector access
during the call is out of bounds, so the call result is `none` (see the
module comment: the embedding yields `none` exactly when an access is out
of bounds).  Quadratic adapter constructed with `n = 0` and empty vectors:
`simple_quad` reads `x_jet[0]` of the empty jet vector.  Exponential
adapter whose stored `y_data` is shorter than `x_data` (vectors of length
2 ≥ n = 2): the data loop reads `y_data[0]`, which is out of bounds. -/
theorem adapter_access_counterexample :
    (SimpleQuadAutoDiff.call ⟨0⟩ [] []).1 = none ∧
    (ExpFitAutoDiff.call ⟨[0], []⟩ [0, 0] [0, 0]).1 = none := by
  constructor
  · simp [SimpleQuadAutoDiff.call, seedList, seedGo, simple_quad]
  · simp [ExpFitAutoDiff.call, expFitLoop]

/-- Claim C10 as amended: for every call to an adapter's `operator()` in
which `x` and `grad` have length at least `n`, and additionally `n ≥ 1` for
the quadratic and Rosenbrock adapters (their objectives unconditionally read
`x[0]`) and the stored `y_data` at least as long as `x_data` for the
exponential adapter (its loop reads `y_data[i]` for every `i` below
`x_data`'s length), every vector index accessed during the call is within
bounds (the call succeeds) and the call assigns exactly the components
`grad[0]` through `grad[n-1]`, leaving length and higher components
untouched. -/
theorem adapter_access_safe (n : ℕ) (x g : List ℝ) (f : ExpFitAutoDiff)
    (params gE : List ℝ)
    (hn : 1 ≤ n) (hx : n ≤ x.length) (hg : n ≤ g.length)
    (hd : f.x_data.length ≤ f.y_data.length) (hp : 2 ≤ params.length)
    (hgE : 2 ≤ gE.length) :
    (∃ (fj : Jet ℝ n) (g2 : List ℝ),
      (SimpleQuadAutoDiff.call ⟨n⟩ x g).1 = some (fj.a, g2) ∧
      g2.length = g.length ∧
      (∀ j, ∀ hj : j < n, g2.get? j = some (fj.v ⟨j, hj⟩)) ∧
      (∀ j, n ≤ j → g2.get? j = g.get? j)) ∧
    (∃ (fj : Jet ℝ n) (g2 : List ℝ),
      (RosenbrockAutoDiff.call ⟨n⟩ x g).1 = some (fj.a, g2) ∧
      g2.length = g.length ∧
      (∀ j, ∀ hj : j < n, g2.get? j = some (fj.v ⟨j, hj⟩)) ∧
      (∀ j, n ≤ j → g2.get? j = g.get? j)) ∧
    (∃ (L : Jet ℝ 2) (g2 : List ℝ),
      (f.call params gE).1 = some (L.a, g2) ∧
      g2.length = gE.length ∧
      (∀ j, ∀ hj : j < 2, g2.get? j = some (L.v ⟨j, hj⟩)) ∧
      (∀ j, 2 ≤ j → g2.get? j = gE.get? j)) := by
  obtain ⟨fj, g2, hcall, hlen, hwr, hsuf⟩ := quadCall_spec n x g hn hx hg
  obtain ⟨fj', g2', hcall', hlen', hwr', hsuf'⟩ := rosenCall_spec n x g hn hx hg
  obtain ⟨L, gE2, hcallE, hlenE, hwrE, hsufE⟩ := expCall_spec f params gE hd hp hgE
  exact ⟨⟨fj, g2, by rw [hcall], hlen, hwr, hsuf⟩,
    ⟨fj', g2', by rw [hcall'], hlen', hwr', hsuf'⟩,
    ⟨L, gE2, by rw [hcallE], hlenE, hwrE, hsufE⟩⟩

/-- Witness for the amended C10 at concrete inputs (`n = 1`, `x = (0)`,
`grad = (0, 0)`; exponential adapter with one aligned data point). -/
theorem adapter_access_safe_witness :
    (1 ≤ 1 ∧ 1 ≤ [(0 : ℝ)].length ∧ 1 ≤ [(0 : ℝ), 0].length ∧
      (ExpFitAutoDiff.x_data ⟨[(0 : ℝ)], [(0 : ℝ)]⟩).length
        ≤ (ExpFitAutoDiff.y_data ⟨[(0 : ℝ)], [(0 : ℝ)]⟩).length ∧
      2 ≤ [(0 : ℝ), 0].length ∧ 2 ≤ [(0 : ℝ), 0].length) ∧
    ((∃ (fj : Jet ℝ 1) (g2 : List ℝ),
      (SimpleQuadAutoDiff.call ⟨1⟩ [(0 : ℝ)] [(0 : ℝ), 0]).1 = some (fj.a, g2) ∧
      g2.length = [(0 : ℝ), 0].length ∧
      (∀ j, ∀ hj : j < 1, g2.get? j = some (fj.v ⟨j, hj⟩)) ∧
      (∀ j, 1 ≤ j → g2.get? j = [(0 : ℝ), 0].get? j)) ∧
    (∃ (fj : Jet ℝ 1) (g2 : List ℝ),
      (RosenbrockAutoDiff.call ⟨1⟩ [(0 : ℝ)] [(0 : ℝ), 0]).1 = some (fj.a, g2) ∧
      g2.length = [(0 : ℝ), 0].length ∧
      (∀ j, ∀ hj : j < 1, g2.get? j = some (fj.v ⟨j, hj⟩)) ∧
      (∀ j, 1 ≤ j → g2.get? j = [(0 : ℝ), 0].get? j)) ∧
    (∃ (L : Jet ℝ 2) (g2 : List ℝ),
      (ExpFitAutoDiff.call ⟨[(0 : ℝ)], [(0 : ℝ)]⟩ [0, 0] [(0 : ℝ), 0]).1
        = some (L.a, g2) ∧
      g2.length = [(0 : ℝ), 0].length ∧
      (∀ j, ∀ hj : j < 2, g2.get? j = some (L.v ⟨j, hj⟩)) ∧
      (∀ j, 2 ≤ j → g2.get? j = [(0 : ℝ), 0].get? j))) :=
  ⟨⟨by omega, by simp, by simp, by simp, by simp, by simp⟩,
   adapter_access_safe 1 [(0 : ℝ)] [(0 : ℝ), 0] ⟨[(0 : ℝ)], [(0 : ℝ)]⟩ [0, 0]
     [(0 : ℝ), 0] (by omega) (by simp) (by simp) (by simp) (by simp) (by simp)⟩

/-- Claim C7: calling an objective evaluator adapter twice with the same
parameter vector yields identical results.  In the embedding: the adapter
value after a call equals the one before it (so a second call starts from
the same state), and the call's outcome — the returned value and every
written gradient component `grad[j]`, `j < n` — is a function of the adapter
state, the parameter vector and the buffer length alone: two calls with the
same `x` and same-length buffers `g`, `g'` produce equal values and equal
written gradient components. -/
theorem adapter_idempotent (n : ℕ) (x g g' params : List ℝ)
    (f : ExpFitAutoDiff) (hlen : g.length = g'.length) :
    ((PowellAutoDiff.call ⟨n⟩ x g).2 = ⟨n⟩ ∧
     (PowellAutoDiff.call ⟨n⟩ x g).1.map Prod.fst
       = (PowellAutoDiff.call ⟨n⟩ x g').1.map Prod.fst ∧
     ∀ j, j < n →
       (PowellAutoDiff.call ⟨n⟩ x g).1.map (fun r => r.2.get? j)
         = (PowellAutoDiff.call ⟨n⟩ x g').1.map (fun r => r.2.get? j)) ∧
    ((f.call params g).2 = f ∧
     (f.call params g).1.map Prod.fst = (f.call params g').1.map Prod.fst ∧
     ∀ j, j < 2 →
       (f.call params g).1.map (fun r => r.2.get? j)
         = (f.call params g').1.map (fun r => r.2.get? j)) := by
  constructor
  · refine ⟨rfl, ?_⟩
    rcases hseed : seedList n x with _ | jets
    · simp only [PowellAutoDiff.call, hseed, Option.bind_eq_bind', Option.none_bind']
      exact ⟨trivial, fun j hj => trivial⟩
    rcases hobj : powell_autodiff jets with _ | fj
    · simp only [PowellAutoDiff.call, hseed, hobj, Option.bind_eq_bind',
        Option.some_bind', Option.none_bind']
      exact ⟨trivial, fun j hj => trivial⟩
    rcases writeGrad_out_eq fj.v g g' hlen with ⟨hw, hw'⟩ | ⟨g2, g2', hw, hw', hval⟩
    · simp only [PowellAutoDiff.call, hseed, hobj, hw, hw', Option.bind_eq_bind',
        Option.some_bind', Option.none_bind']
      exact ⟨trivial, fun j hj => trivial⟩
    · simp only [PowellAutoDiff.call, hseed, hobj, hw, hw', Option.bind_eq_bind',
        Option.some_bind', Option.pure_def, Option.map_some']
      refine ⟨trivial, fun j hj => ?_⟩
      show some (g2.get? j) = some (g2'.get? j)
      rw [(hval j hj).1, (hval j hj).2]
  · refine ⟨rfl, ?_⟩
    rcases hp0 : params.get? 0 with _ | p0
    · simp only [ExpFitAutoDiff.call, hp0, Option.bind_eq_bind', Option.none_bind']
      exact ⟨trivial, fun j hj => trivial⟩
    rcases hp1 : params.get? 1 with _ | p1
    · simp only [ExpFitAutoDiff.call, hp0, hp1, Option.bind_eq_bind',
        Option.some_bind', Option.none_bind']
      exact ⟨trivial, fun j hj => trivial⟩
    rcases hloop : expFitLoop ⟨p0, ![1, 0]⟩ ⟨p1, ![0, 1]⟩ f.x_data f.y_data (Jet.C 0)
      with _ | L
    · simp only [ExpFitAutoDiff.call, hp0, hp1, hloop, Option.bind_eq_bind',
        Option.some_bind', Option.none_bind']
      exact ⟨trivial, fun j hj => trivial⟩
    rcases writeGrad_out_eq L.v g g' hlen with ⟨hw, hw'⟩ | ⟨g2, g2', hw, hw', hval⟩
    · simp only [ExpFitAutoDiff.call, hp0, hp1, hloop, hw, hw', Option.bind_eq_bind',
        Option.some_bind', Option.none_bind']
      exact ⟨trivial, fun j hj => trivial⟩
    · simp only [ExpFitAutoDiff.call, hp0, hp1, hloop, hw, hw', Option.bind_eq_bind',
        Option.some_bind', Option.pure_def, Option.map_some']
      refine ⟨trivial, fun j hj => ?_⟩
      show some (g2.get? j) = some (g2'.get? j)
      rw [(hval j hj).1, (hval j hj).2]

/-- Witness for C7 at concrete inputs: Powell adapter with `n = 4`,
`x = (3, -1, 0, 1)`, two distinct four-slot buffers; exponential adapter
with one data point. -/
theorem adapter_idempotent_witness :
    ([(9 : ℝ), 9, 9, 9].length = [(7 : ℝ), 7, 7, 7].length) ∧
    (((PowellAutoDiff.call ⟨4⟩ [(3 : ℝ), -1, 0, 1] [(9 : ℝ), 9, 9, 9]).2 = ⟨4⟩ ∧
     (PowellAutoDiff.call ⟨4⟩ [(3 : ℝ), -1, 0, 1] [(9 : ℝ), 9, 9, 9]).1.map Prod.fst
       = (PowellAutoDiff.call ⟨4⟩ [(3 : ℝ), -1, 0, 1] [(7 : ℝ), 7, 7, 7]).1.map Prod.fst ∧
     ∀ j, j < 4 →
       (PowellAutoDiff.call ⟨4⟩ [(3 : ℝ), -1, 0, 1] [(9 : ℝ), 9, 9, 9]).1.map
           (fun r => r.2.get? j)
         = (PowellAutoDiff.call ⟨4⟩ [(3 : ℝ), -1, 0, 1] [(7 : ℝ), 7, 7, 7]).1.map
           (fun r => r.2.get? j)) ∧
    ((ExpFitAutoDiff.call ⟨[(0 : ℝ)], [(0 : ℝ)]⟩ [0, 0] [(9 : ℝ), 9, 9, 9]).2
        = ⟨[(0 : ℝ)], [(0 : ℝ)]⟩ ∧
     (ExpFitAutoDiff.call ⟨[(0 : ℝ)], [(0 : ℝ)]⟩ [0, 0] [(9 : ℝ), 9, 9, 9]).1.map Prod.fst
       = (ExpFitAutoDiff.call ⟨[(0 : ℝ)], [(0 : ℝ)]⟩ [0, 0] [(7 : ℝ), 7, 7, 7]).1.map Prod.fst ∧
     ∀ j, j < 2 →
       (ExpFitAutoDiff.call ⟨[(0 : ℝ)], [(0 : ℝ)]⟩ [0, 0] [(9 : ℝ), 9, 9, 9]).1.map
           (fun r => r.2.get? j)
         = (ExpFitAutoDiff.call ⟨[(0 : ℝ)], [(0 : ℝ)]⟩ [0, 0] [(7 : ℝ), 7, 7, 7]).1.map
           (fun r => r.2.get? j))) :=
  ⟨by simp,
   adapter_idempotent 4 [(3 : ℝ), -1, 0, 1] [(9 : ℝ), 9, 9, 9] [(7 : ℝ), 7, 7, 7]
     [(0 : ℝ), 0] ⟨[(0 : ℝ)], [(0 : ℝ)]⟩ (by simp)⟩
